import Mathlib

/-!
Verification of the paper-trading simulator in
`backend/services/portfolio_sim.py` of the JBAC AI Trading Coach repository.

The Python floats of the source are modelled as exact rationals (`ℚ`); the
float literal `1e-9` that guards the average-cost denominator becomes the
rational `1 / 1000000000`.  Pydantic models `Position`, `Trade` and
`PortfolioState` (from `backend/domain.py`) become Lean structures.  The
Python function `execute_trade` raises `ValueError` for the two failure
conditions; here it returns `Except TradeError PortfolioState`.
-/

attribute [local semireducible] Rat.add Rat.sub Rat.mul Rat.inv

namespace PortfolioSim

/-- `Position` from `backend/domain.py`: symbol, quantity, avg_price. -/
structure Position where
  symbol : String
  quantity : ℚ
  avg_price : ℚ
deriving Repr, DecidableEq, Inhabited

/-- `Trade` from `backend/domain.py`: symbol, side, quantity, price, time. -/
structure Trade where
  symbol : String
  side : String
  quantity : ℚ
  price : ℚ
  time : String
deriving Repr, DecidableEq, Inhabited

/-- `PortfolioState` from `backend/domain.py`: cash, positions, history. -/
structure PortfolioState where
  cash : ℚ
  positions : List Position
  history : List Trade
deriving Repr, DecidableEq, Inhabited

/-- The two `ValueError`s `execute_trade` can raise
("Insufficient cash", "Insufficient shares"). -/
inductive TradeError where
  | insufficientCash
  | insufficientShares
deriving Repr, DecidableEq

instance {α : Type} [DecidableEq α] : DecidableEq (Except TradeError α) :=
  fun a b =>
    match a, b with
    | .ok x, .ok y =>
      match decEq x y with
      | .isTrue h => .isTrue (by rw [h])
      | .isFalse h => .isFalse (by intro hc; cases hc; exact h rfl)
    | .error x, .error y =>
      match decEq x y with
      | .isTrue h => .isTrue (by rw [h])
      | .isFalse h => .isFalse (by intro hc; cases hc; exact h rfl)
    | .ok _, .error _ => .isFalse (by intro hc; cases hc)
    | .error _, .ok _ => .isFalse (by intro hc; cases hc)

/-- `ensure_position` (portfolio_sim.py lines 13-19): scan the list for the
first position with the given symbol and return it; if none exists, append a
fresh `Position(symbol, 0.0, 0.0)` at the end.  The Python function returns a
reference into the (mutated) list; here we return the updated list together
with the index of the found-or-created position. -/
def ensure_position : List Position → String → List Position × Nat
  | [], symbol => ([⟨symbol, 0, 0⟩], 0)
  | p :: ps, symbol =>
    if p.symbol == symbol then (p :: ps, 0)
    else
      let r := ensure_position ps symbol
      (p :: r.1, r.2 + 1)

/-- `execute_trade` (portfolio_sim.py lines 21-41).  The Python code first
deep-copies the incoming state (line 22) and then mutates only the copy; the
pure translation below builds the resulting state directly.  Note the source
dispatches on `if side == "buy": ... else: ...` — every side other than
`"buy"` takes the sell branch. -/
def execute_trade (state : PortfolioState) (symbol side : String)
    (quantity price : ℚ) (time : String) : Except TradeError PortfolioState :=
  if side == "buy" then
    let cost := quantity * price
    if state.cash < cost then .error .insufficientCash
    else
      let cash1 := state.cash - cost
      let r := ensure_position state.positions symbol
      let pos := r.1.getD r.2 default
      let new_qty := pos.quantity + quantity
      let pos1 : Position :=
        { pos with
          avg_price := (pos.avg_price * pos.quantity + price * quantity) /
            max new_qty (1 / 1000000000),
          quantity := new_qty }
      .ok { cash := cash1, positions := r.1.set r.2 pos1,
            history := state.history ++ [⟨symbol, side, quantity, price, time⟩] }
  else
    let r := ensure_position state.positions symbol
    let pos := r.1.getD r.2 default
    if pos.quantity < quantity then .error .insufficientShares
    else
      let cash1 := state.cash + quantity * price
      let q1 := pos.quantity - quantity
      let pos1 : Position :=
        { pos with
          quantity := q1,
          avg_price := if q1 = 0 then 0 else pos.avg_price }
      .ok { cash := cash1, positions := r.1.set r.2 pos1,
            history := state.history ++ [⟨symbol, side, quantity, price, time⟩] }

/-- Quantity held in a symbol: the first matching position's quantity, or 0
when no position exists (matching `ensure_position`'s create-at-zero view). -/
def heldQty (positions : List Position) (symbol : String) : ℚ :=
  match positions.find? (fun p => p.symbol == symbol) with
  | some p => p.quantity
  | none => 0

/-- Average cost recorded for a symbol: the first matching position's
avg_price, or 0 when no position exists. -/
def heldAvg (positions : List Position) (symbol : String) : ℚ :=
  match positions.find? (fun p => p.symbol == symbol) with
  | some p => p.avg_price
  | none => 0

/-- A trade request: the argument tuple of one `execute_trade` call. -/
structure TradeReq where
  symbol : String
  side : String
  quantity : ℚ
  price : ℚ
  time : String
deriving Repr, DecidableEq

/-- Apply a sequence of `execute_trade` calls, stopping at the first error. -/
def applyTrades (s : PortfolioState) : List TradeReq → Except TradeError PortfolioState
  | [] => .ok s
  | r :: rs =>
    match execute_trade s r.symbol r.side r.quantity r.price r.time with
    | .error e => .error e
    | .ok s1 => applyTrades s1 rs

/-- Per-position invariant: quantity is non-negative, and a zero-quantity
position carries no stale basis (avg_price is zero). -/
def PosOK (x : Position) : Prop := 0 ≤ x.quantity ∧ (x.quantity = 0 → x.avg_price = 0)

/-- Object-level model of one `execute_trade` call, for aliasing claims.
`PortfolioState` objects live in a store indexed by object ids; the caller
holds id `sid`.  Line 22 of portfolio_sim.py
(`state = PortfolioState(**state.model_dump())`) allocates a deep copy of the
caller's object at a fresh id `fresh` and rebinds the local name to it; every
later field mutation in the function hits only that copy.  On success the
copy's id is returned; on a raised `ValueError` the copy is abandoned and no
existing object is written. -/
def execute_trade_ref (store : Nat → PortfolioState) (sid fresh : Nat)
    (symbol side : String) (quantity price : ℚ) (time : String) :
    Except TradeError Nat × (Nat → PortfolioState) :=
  let store1 := Function.update store fresh (store sid)
  match execute_trade (store1 fresh) symbol side quantity price time with
  | .error e => (.error e, store1)
  | .ok s1 => (.ok fresh, Function.update store1 fresh s1)

end PortfolioSim

namespace PortfolioSim

/-! ### Characterization of `ensure_position` -/

theorem heldQty_cons_pos {p : Position} {ps : List Position} {sym : String}
    (h : (p.symbol == sym) = true) : heldQty (p :: ps) sym = p.quantity := by
  unfold heldQty
  rw [List.find?_cons_of_pos (p := fun x : Position => x.symbol == sym) _ h]

theorem heldQty_cons_neg {p : Position} {ps : List Position} {sym : String}
    (h : ¬ (p.symbol == sym) = true) : heldQty (p :: ps) sym = heldQty ps sym := by
  unfold heldQty
  rw [List.find?_cons_of_neg (p := fun x : Position => x.symbol == sym) _ h]

theorem heldAvg_cons_pos {p : Position} {ps : List Position} {sym : String}
    (h : (p.symbol == sym) = true) : heldAvg (p :: ps) sym = p.avg_price := by
  unfold heldAvg
  rw [List.find?_cons_of_pos (p := fun x : Position => x.symbol == sym) _ h]

theorem heldAvg_cons_neg {p : Position} {ps : List Position} {sym : String}
    (h : ¬ (p.symbol == sym) = true) : heldAvg (p :: ps) sym = heldAvg ps sym := by
  unfold heldAvg
  rw [List.find?_cons_of_neg (p := fun x : Position => x.symbol == sym) _ h]

theorem ensure_position_get (l : List Position) (sym : String) :
    ((ensure_position l sym).1.getD (ensure_position l sym).2 default).symbol = sym ∧
    ((ensure_position l sym).1.getD (ensure_position l sym).2 default).quantity = heldQty l sym ∧
    ((ensure_position l sym).1.getD (ensure_position l sym).2 default).avg_price = heldAvg l sym := by
  induction l with
  | nil => simp [ensure_position, heldQty, heldAvg]
  | cons p ps ih =>
    by_cases h : (p.symbol == sym) = true
    · refine ⟨?_, ?_, ?_⟩ <;>
        simp only [ensure_position, h, if_true, List.getD_cons_zero,
          heldQty_cons_pos h, heldAvg_cons_pos h]
      exact eq_of_beq h
    · simp only [ensure_position, h, Bool.false_eq_true, if_false, List.getD_cons_succ,
        heldQty_cons_neg h, heldAvg_cons_neg h]
      exact ih

theorem ensure_position_mem (l : List Position) (sym : String) :
    ∀ x ∈ (ensure_position l sym).1, x ∈ l ∨ x = ⟨sym, 0, 0⟩ := by
  induction l with
  | nil => simp [ensure_position]
  | cons p ps ih =>
    intro x hx
    by_cases h : p.symbol == sym
    · simp only [ensure_position, h, if_true] at hx
      exact Or.inl hx
    · simp only [ensure_position, h, Bool.false_eq_true, if_false, List.mem_cons] at hx
      rcases hx with hx | hx
      · exact Or.inl (by simp [hx])
      · rcases ih x hx with h1 | h1
        · exact Or.inl (List.mem_cons_of_mem _ h1)
        · exact Or.inr h1

theorem find_set_ensure (l : List Position) (sym : String) (y : Position)
    (hy : y.symbol = sym) :
    ((ensure_position l sym).1.set (ensure_position l sym).2 y).find?
      (fun x => x.symbol == sym) = some y := by
  induction l with
  | nil =>
    simp only [ensure_position, List.set_cons_zero]
    exact List.find?_cons_of_pos _ (by simp [hy])
  | cons p ps ih =>
    by_cases h : (p.symbol == sym) = true
    · simp only [ensure_position, h, if_true, List.set_cons_zero]
      exact List.find?_cons_of_pos _ (by simp [hy])
    · simp only [ensure_position, h, Bool.false_eq_true, if_false, List.set_cons_succ]
      rw [List.find?_cons_of_neg (p := fun x : Position => x.symbol == sym) _ h]
      exact ih

theorem heldQty_set_ensure (l : List Position) (sym : String) (y : Position)
    (h : y.symbol = sym) :
    heldQty ((ensure_position l sym).1.set (ensure_position l sym).2 y) sym = y.quantity := by
  unfold heldQty
  rw [find_set_ensure l sym y h]

theorem heldAvg_set_ensure (l : List Position) (sym : String) (y : Position)
    (h : y.symbol = sym) :
    heldAvg ((ensure_position l sym).1.set (ensure_position l sym).2 y) sym = y.avg_price := by
  unfold heldAvg
  rw [find_set_ensure l sym y h]

/-! ### Branch equations for `execute_trade` -/

theorem execute_trade_buy_def (s : PortfolioState) (sym : String) (q p : ℚ) (t : String) :
    execute_trade s sym "buy" q p t =
      (if s.cash < q * p then .error .insufficientCash
       else
        .ok { cash := s.cash - q * p,
              positions :=
                (ensure_position s.positions sym).1.set (ensure_position s.positions sym).2
                  { symbol :=
                      ((ensure_position s.positions sym).1.getD
                        (ensure_position s.positions sym).2 default).symbol,
                    quantity := heldQty s.positions sym + q,
                    avg_price :=
                      (heldAvg s.positions sym * heldQty s.positions sym + p * q) /
                        max (heldQty s.positions sym + q) (1 / 1000000000) },
              history := s.history ++ [⟨sym, "buy", q, p, t⟩] }) := by
  obtain ⟨h1, h2, h3⟩ := ensure_position_get s.positions sym
  by_cases hc : s.cash < q * p
  · simp [execute_trade, hc]
  · simp only [← h2, ← h3]
    simp [execute_trade, hc]

theorem execute_trade_not_buy_def (s : PortfolioState) (sym side : String) (q p : ℚ)
    (t : String) (hside : side ≠ "buy") :
    execute_trade s sym side q p t =
      (if heldQty s.positions sym < q then .error .insufficientShares
       else
        .ok { cash := s.cash + q * p,
              positions :=
                (ensure_position s.positions sym).1.set (ensure_position s.positions sym).2
                  { symbol :=
                      ((ensure_position s.positions sym).1.getD
                        (ensure_position s.positions sym).2 default).symbol,
                    quantity := heldQty s.positions sym - q,
                    avg_price :=
                      if heldQty s.positions sym - q = 0 then 0
                      else heldAvg s.positions sym },
              history := s.history ++ [⟨sym, side, q, p, t⟩] }) := by
  obtain ⟨h1, h2, h3⟩ := ensure_position_get s.positions sym
  have hb : (side == "buy") = false := beq_eq_false_iff_ne.mpr hside
  simp only [← h2, ← h3]
  simp [execute_trade, hb]

/-! ### Observer lemmas for the two branches of `execute_trade` -/

theorem buy_error_iff (s : PortfolioState) (sym : String) (q p : ℚ) (t : String)
    (e : TradeError) :
    execute_trade s sym "buy" q p t = .error e ↔
      s.cash < q * p ∧ e = .insufficientCash := by
  rw [execute_trade_buy_def]
  by_cases hc : s.cash < q * p
  · rw [if_pos hc]
    simp [hc, eq_comm]
  · rw [if_neg hc]
    simp [hc]

theorem buy_ok_exists (s : PortfolioState) (sym : String) (q p : ℚ) (t : String)
    (h : ¬ s.cash < q * p) :
    ∃ s1, execute_trade s sym "buy" q p t = .ok s1 := by
  rw [execute_trade_buy_def, if_neg h]
  exact ⟨_, rfl⟩

theorem buy_ok_parts (s : PortfolioState) (sym : String) (q p : ℚ) (t : String)
    (s1 : PortfolioState) (h : execute_trade s sym "buy" q p t = .ok s1) :
    s1.cash = s.cash - q * p ∧
    heldQty s1.positions sym = heldQty s.positions sym + q ∧
    heldAvg s1.positions sym =
      (heldAvg s.positions sym * heldQty s.positions sym + p * q) /
        max (heldQty s.positions sym + q) (1 / 1000000000) ∧
    s1.history = s.history ++ [⟨sym, "buy", q, p, t⟩] ∧
    ∀ x ∈ s1.positions, x ∈ s.positions ∨ x = ⟨sym, 0, 0⟩ ∨
      (x.symbol = sym ∧ x.quantity = heldQty s.positions sym + q) := by
  rw [execute_trade_buy_def] at h
  by_cases hc : s.cash < q * p
  · rw [if_pos hc] at h
    cases h
  · rw [if_neg hc] at h
    obtain rfl := (Except.ok.inj h).symm
    obtain ⟨hsym, -, -⟩ := ensure_position_get s.positions sym
    refine ⟨rfl, ?_, ?_, rfl, ?_⟩
    · exact heldQty_set_ensure s.positions sym _ hsym
    · exact heldAvg_set_ensure s.positions sym _ hsym
    · intro x hx
      rcases List.mem_or_eq_of_mem_set hx with hx1 | hx1
      · rcases ensure_position_mem s.positions sym x hx1 with hx2 | hx2
        · exact Or.inl hx2
        · exact Or.inr (Or.inl hx2)
      · subst hx1
        exact Or.inr (Or.inr ⟨hsym, rfl⟩)

theorem sell_error_iff (s : PortfolioState) (sym side : String) (q p : ℚ) (t : String)
    (hside : side ≠ "buy") (e : TradeError) :
    execute_trade s sym side q p t = .error e ↔
      heldQty s.positions sym < q ∧ e = .insufficientShares := by
  rw [execute_trade_not_buy_def s sym side q p t hside]
  by_cases hq : heldQty s.positions sym < q
  · rw [if_pos hq]
    simp [hq, eq_comm]
  · rw [if_neg hq]
    simp [hq]

theorem sell_ok_exists (s : PortfolioState) (sym side : String) (q p : ℚ) (t : String)
    (hside : side ≠ "buy") (h : ¬ heldQty s.positions sym < q) :
    ∃ s1, execute_trade s sym side q p t = .ok s1 := by
  rw [execute_trade_not_buy_def s sym side q p t hside, if_neg h]
  exact ⟨_, rfl⟩

theorem sell_ok_parts (s : PortfolioState) (sym side : String) (q p : ℚ) (t : String)
    (hside : side ≠ "buy") (s1 : PortfolioState)
    (h : execute_trade s sym side q p t = .ok s1) :
    ¬ heldQty s.positions sym < q ∧
    s1.cash = s.cash + q * p ∧
    heldQty s1.positions sym = heldQty s.positions sym - q ∧
    heldAvg s1.positions sym =
      (if heldQty s.positions sym - q = 0 then 0 else heldAvg s.positions sym) ∧
    s1.history = s.history ++ [⟨sym, side, q, p, t⟩] ∧
    ∀ x ∈ s1.positions, x ∈ s.positions ∨ x = ⟨sym, 0, 0⟩ ∨
      (x.symbol = sym ∧ x.quantity = heldQty s.positions sym - q ∧
       x.avg_price = (if heldQty s.positions sym - q = 0 then 0
         else heldAvg s.positions sym)) := by
  rw [execute_trade_not_buy_def s sym side q p t hside] at h
  by_cases hq : heldQty s.positions sym < q
  · rw [if_pos hq] at h
    cases h
  · rw [if_neg hq] at h
    obtain rfl := (Except.ok.inj h).symm
    obtain ⟨hsym, -, -⟩ := ensure_position_get s.positions sym
    refine ⟨hq, rfl, ?_, ?_, rfl, ?_⟩
    · exact heldQty_set_ensure s.positions sym _ hsym
    · exact heldAvg_set_ensure s.positions sym _ hsym
    · intro x hx
      rcases List.mem_or_eq_of_mem_set hx with hx1 | hx1
      · rcases ensure_position_mem s.positions sym x hx1 with hx2 | hx2
        · exact Or.inl hx2
        · exact Or.inr (Or.inl hx2)
      · subst hx1
        exact Or.inr (Or.inr ⟨hsym, rfl, rfl⟩)

/-! ### Single-step invariant lemmas -/

theorem heldQty_nonneg_of (l : List Position) (sym : String)
    (h : ∀ x ∈ l, 0 ≤ x.quantity) : 0 ≤ heldQty l sym := by
  unfold heldQty
  cases hf : l.find? (fun x => x.symbol == sym) with
  | none => exact le_refl 0
  | some x => exact h x (List.mem_of_find?_eq_some hf)

theorem buy_ok_not_lt (s : PortfolioState) (sym : String) (q p : ℚ) (t : String)
    (s1 : PortfolioState) (h : execute_trade s sym "buy" q p t = .ok s1) :
    ¬ s.cash < q * p := by
  intro hlt
  rw [execute_trade_buy_def, if_pos hlt] at h
  cases h

theorem step_cash_nonneg (s s1 : PortfolioState) (sym side : String) (q p : ℚ)
    (t : String) (hq : 0 < q) (hp : 0 < p) (hc : 0 ≤ s.cash)
    (h : execute_trade s sym side q p t = .ok s1) : 0 ≤ s1.cash := by
  by_cases hside : side = "buy"
  · subst hside
    have hok := buy_ok_not_lt s sym q p t s1 h
    obtain ⟨hcash, -⟩ := buy_ok_parts s sym q p t s1 h
    rw [hcash]
    have := not_lt.mp hok
    linarith
  · obtain ⟨-, hcash, -⟩ := sell_ok_parts s sym side q p t hside s1 h
    rw [hcash]
    have : 0 < q * p := mul_pos hq hp
    linarith

theorem step_qty_nonneg (s s1 : PortfolioState) (sym side : String) (q p : ℚ)
    (t : String) (hq : 0 < q) (hinv : ∀ x ∈ s.positions, 0 ≤ x.quantity)
    (h : execute_trade s sym side q p t = .ok s1) :
    ∀ x ∈ s1.positions, 0 ≤ x.quantity := by
  by_cases hside : side = "buy"
  · subst hside
    obtain ⟨-, -, -, -, hmem⟩ := buy_ok_parts s sym q p t s1 h
    intro x hx
    rcases hmem x hx with h1 | h1 | h1
    · exact hinv x h1
    · rw [h1]
    · rw [h1.2]
      have := heldQty_nonneg_of s.positions sym hinv
      linarith
  · obtain ⟨hle, -, -, -, -, hmem⟩ := sell_ok_parts s sym side q p t hside s1 h
    intro x hx
    rcases hmem x hx with h1 | h1 | h1
    · exact hinv x h1
    · rw [h1]
    · rw [h1.2.1]
      have := not_lt.mp hle
      linarith

theorem step_posOK (s s1 : PortfolioState) (sym side : String) (q p : ℚ)
    (t : String) (hq : 0 < q) (hinv : ∀ x ∈ s.positions, PosOK x)
    (h : execute_trade s sym side q p t = .ok s1) :
    ∀ x ∈ s1.positions, PosOK x := by
  have hq0 : ∀ x ∈ s.positions, 0 ≤ x.quantity := fun x hx => (hinv x hx).1
  by_cases hside : side = "buy"
  · subst hside
    obtain ⟨-, -, -, -, hmem⟩ := buy_ok_parts s sym q p t s1 h
    intro x hx
    rcases hmem x hx with h1 | h1 | h1
    · exact hinv x h1
    · rw [h1]
      exact ⟨le_refl 0, fun _ => rfl⟩
    · have hhq := heldQty_nonneg_of s.positions sym hq0
      constructor
      · rw [h1.2]
        linarith
      · intro h0
        rw [h1.2] at h0
        linarith
  · obtain ⟨hle, -, -, -, -, hmem⟩ := sell_ok_parts s sym side q p t hside s1 h
    intro x hx
    rcases hmem x hx with h1 | h1 | h1
    · exact hinv x h1
    · rw [h1]
      exact ⟨le_refl 0, fun _ => rfl⟩
    · obtain ⟨hsym, hqty, havg⟩ := h1
      constructor
      · rw [hqty]
        have := not_lt.mp hle
        linarith
      · intro h0
        rw [hqty] at h0
        rw [havg, if_pos h0]

theorem step_history (s s1 : PortfolioState) (sym side : String) (q p : ℚ)
    (t : String) (h : execute_trade s sym side q p t = .ok s1) :
    s1.history = s.history ++ [⟨sym, side, q, p, t⟩] := by
  by_cases hside : side = "buy"
  · subst hside
    exact (buy_ok_parts s sym q p t s1 h).2.2.2.1
  · exact (sell_ok_parts s sym side q p t hside s1 h).2.2.2.2.1

/-! ### Sequence lemmas over `applyTrades` -/

theorem applyTrades_cash_nonneg (l : List TradeReq) :
    ∀ s : PortfolioState, 0 ≤ s.cash → (∀ r ∈ l, 0 < r.quantity ∧ 0 < r.price) →
      ∀ s1, applyTrades s l = .ok s1 → 0 ≤ s1.cash := by
  induction l with
  | nil =>
    intro s hc _ s1 h
    obtain rfl := Except.ok.inj h
    exact hc
  | cons r rs ih =>
    intro s hc hl s1 h
    simp only [applyTrades] at h
    cases he : execute_trade s r.symbol r.side r.quantity r.price r.time with
    | error e => simp [he] at h
    | ok s2 =>
      rw [he] at h
      have hr := hl r (List.mem_cons_self r rs)
      have h2 := step_cash_nonneg s s2 r.symbol r.side r.quantity r.price r.time
        hr.1 hr.2 hc he
      exact ih s2 h2 (fun x hx => hl x (List.mem_cons_of_mem _ hx)) s1 h

theorem applyTrades_qty_nonneg (l : List TradeReq) :
    ∀ s : PortfolioState, (∀ x ∈ s.positions, 0 ≤ x.quantity) →
      (∀ r ∈ l, 0 < r.quantity) →
      ∀ s1, applyTrades s l = .ok s1 → ∀ x ∈ s1.positions, 0 ≤ x.quantity := by
  induction l with
  | nil =>
    intro s hinv _ s1 h
    obtain rfl := Except.ok.inj h
    exact hinv
  | cons r rs ih =>
    intro s hinv hl s1 h
    simp only [applyTrades] at h
    cases he : execute_trade s r.symbol r.side r.quantity r.price r.time with
    | error e => simp [he] at h
    | ok s2 =>
      rw [he] at h
      have h2 := step_qty_nonneg s s2 r.symbol r.side r.quantity r.price r.time
        (hl r (List.mem_cons_self r rs)) hinv he
      exact ih s2 h2 (fun x hx => hl x (List.mem_cons_of_mem _ hx)) s1 h

theorem applyTrades_posOK (l : List TradeReq) :
    ∀ s : PortfolioState, (∀ x ∈ s.positions, PosOK x) →
      (∀ r ∈ l, 0 < r.quantity) →
      ∀ s1, applyTrades s l = .ok s1 → ∀ x ∈ s1.positions, PosOK x := by
  induction l with
  | nil =>
    intro s hinv _ s1 h
    obtain rfl := Except.ok.inj h
    exact hinv
  | cons r rs ih =>
    intro s hinv hl s1 h
    simp only [applyTrades] at h
    cases he : execute_trade s r.symbol r.side r.quantity r.price r.time with
    | error e => simp [he] at h
    | ok s2 =>
      rw [he] at h
      have h2 := step_posOK s s2 r.symbol r.side r.quantity r.price r.time
        (hl r (List.mem_cons_self r rs)) hinv he
      exact ih s2 h2 (fun x hx => hl x (List.mem_cons_of_mem _ hx)) s1 h

theorem applyTrades_history (l : List TradeReq) :
    ∀ s s1 : PortfolioState, applyTrades s l = .ok s1 →
      ∃ u, s1.history = s.history ++ u := by
  induction l with
  | nil =>
    intro s s1 h
    obtain rfl := Except.ok.inj h
    exact ⟨[], (List.append_nil _).symm⟩
  | cons r rs ih =>
    intro s s1 h
    simp only [applyTrades] at h
    cases he : execute_trade s r.symbol r.side r.quantity r.price r.time with
    | error e => simp [he] at h
    | ok s2 =>
      rw [he] at h
      obtain ⟨u, hu⟩ := ih s2 s1 h
      refine ⟨⟨r.symbol, r.side, r.quantity, r.price, r.time⟩ :: u, ?_⟩
      rw [hu, step_history s s2 r.symbol r.side r.quantity r.price r.time he]
      simp

example :
    execute_trade ⟨100, [], []⟩ "AAPL" "buy" 2 10 "t0" =
      .ok ⟨80, [⟨"AAPL", 2, 10⟩], [⟨"AAPL", "buy", 2, 10, "t0"⟩]⟩ := by decide

example :
    execute_trade ⟨0, [⟨"AAPL", 5, 10⟩], []⟩ "AAPL" "hold" 3 2 "t0" =
      .ok ⟨6, [⟨"AAPL", 2, 10⟩], [⟨"AAPL", "hold", 3, 2, "t0"⟩]⟩ := by decide

example :
    execute_trade ⟨100, [], []⟩ "Y" "sell" 1 5 "t0" =
      .error .insufficientShares := by decide

end PortfolioSim

namespace PortfolioSim

/-! ### Claim theorems -/

/-- C1 counterexample: there is no invalid-side error.  With a held position
of 5 shares of AAPL, `execute_trade` with side `"hold"` does not fail — it
executes as a sell, changing cash, the position, and the history. -/
theorem C1_counterexample :
    (execute_trade ⟨0, [⟨"AAPL", 5, 10⟩], []⟩ "AAPL" "hold" 3 2 "t0").map
        (fun s1 => (s1.cash, heldQty s1.positions "AAPL", s1.history.length)) =
      .ok (6, 2, 1) := by decide

/-- C1 (amended): for a side that is neither "buy" nor "sell",
`execute_trade` applies sell semantics: the only error it can produce is
`insufficientShares`, raised exactly when the requested quantity exceeds the
held quantity (a missing position counts as zero). -/
theorem C1_invalid_side_is_sell (s : PortfolioState) (sym side : String) (q p : ℚ)
    (t : String) (hb : side ≠ "buy") (hs : side ≠ "sell") :
    (∀ e, execute_trade s sym side q p t = .error e → e = .insufficientShares) ∧
    (execute_trade s sym side q p t = .error .insufficientShares ↔
      heldQty s.positions sym < q) := by
  constructor
  · intro e he
    exact ((sell_error_iff s sym side q p t hb e).mp he).2
  · constructor
    · intro he
      exact ((sell_error_iff s sym side q p t hb _).mp he).1
    · intro hlt
      exact (sell_error_iff s sym side q p t hb _).mpr ⟨hlt, rfl⟩

/-- C1 witness: side "hold" with no holdings fails with the
insufficient-shares error. -/
theorem C1_invalid_side_is_sell_witness :
    execute_trade ⟨0, [], []⟩ "X" "hold" 1 1 "t" = .error .insufficientShares :=
  (C1_invalid_side_is_sell ⟨0, [], []⟩ "X" "hold" 1 1 "t" (by decide) (by decide)).2.mpr
    (by decide)

/-- C2 counterexample: two buys of 1e-10 units at price 4 each.  The
quantity-weighted average would be 4, but the 1e-9 denominator guard makes
the recorded average cost differ. -/
theorem C2_counterexample :
    ((execute_trade ⟨100, [], []⟩ "A" "buy" (1 / 10000000000) 4 "t1").bind
        (fun s1 => execute_trade s1 "A" "buy" (1 / 10000000000) 4 "t2")).map
        (fun s2 => (heldQty s2.positions "A", heldAvg s2.positions "A")) =
      .ok (1 / 10000000000 + 1 / 10000000000, 11 / 25) ∧
    ((1 / 10000000000) * 4 + (1 / 10000000000) * 4) /
        (1 / 10000000000 + 1 / 10000000000) = (4 : ℚ) ∧
    ¬ (11 / 25 : ℚ) = 4 := by
  refine ⟨by decide, by decide, by decide⟩

/-- C2 (amended): buying q1 then q2 of a fresh symbol yields quantity q1+q2
and average cost (q1*p1+q2*p2)/(q1+q2), provided q1 is at least the 1e-9
denominator guard (for smaller quantities the guard distorts the average). -/
theorem C2_avg_cost (s : PortfolioState) (sym : String) (q1 q2 p1 p2 : ℚ)
    (t1 t2 : String)
    (h1 : 1 / 1000000000 ≤ q1) (h2 : 0 < q2) (hp1 : 0 < p1) (hp2 : 0 < p2)
    (hno : s.positions.find? (fun x => x.symbol == sym) = none)
    (hc : q1 * p1 + q2 * p2 ≤ s.cash) :
    ∃ s1 s2, execute_trade s sym "buy" q1 p1 t1 = .ok s1 ∧
      execute_trade s1 sym "buy" q2 p2 t2 = .ok s2 ∧
      heldQty s2.positions sym = q1 + q2 ∧
      heldAvg s2.positions sym = (q1 * p1 + q2 * p2) / (q1 + q2) := by
  have hq1 : 0 < q1 := lt_of_lt_of_le (by norm_num) h1
  have hQ0 : heldQty s.positions sym = 0 := by
    unfold heldQty
    rw [hno]
  have hA0 : heldAvg s.positions sym = 0 := by
    unfold heldAvg
    rw [hno]
  have hp2q2 : 0 < q2 * p2 := mul_pos h2 hp2
  have hc1 : ¬ s.cash < q1 * p1 := by linarith
  obtain ⟨s1, hs1⟩ := buy_ok_exists s sym q1 p1 t1 hc1
  obtain ⟨hcash1, hQ1, hA1, -, -⟩ := buy_ok_parts s sym q1 p1 t1 s1 hs1
  rw [hQ0, zero_add] at hQ1
  rw [hA0, hQ0, zero_add, zero_mul, zero_add, max_eq_left h1] at hA1
  have hA1p : heldAvg s1.positions sym = p1 := by
    rw [hA1]
    exact mul_div_cancel_right₀ p1 (ne_of_gt hq1)
  have hc2 : ¬ s1.cash < q2 * p2 := by
    rw [hcash1]
    intro hcon
    nlinarith
  obtain ⟨s2, hs2⟩ := buy_ok_exists s1 sym q2 p2 t2 hc2
  obtain ⟨-, hQ2, hA2, -, -⟩ := buy_ok_parts s1 sym q2 p2 t2 s2 hs2
  rw [hQ1] at hQ2
  rw [hA1p, hQ1, max_eq_left (le_trans h1 (by linarith))] at hA2
  refine ⟨s1, s2, hs1, hs2, hQ2, ?_⟩
  rw [hA2]
  ring_nf

/-- C2 witness: buy 1 unit at 2 then 3 units at 4 from empty holdings. -/
theorem C2_avg_cost_witness :
    ∃ s1 s2, execute_trade ⟨100, [], []⟩ "A" "buy" 1 2 "t1" = .ok s1 ∧
      execute_trade s1 "A" "buy" 3 4 "t2" = .ok s2 ∧
      heldQty s2.positions "A" = 1 + 3 ∧
      heldAvg s2.positions "A" = (1 * 2 + 3 * 4) / (1 + 3) :=
  C2_avg_cost ⟨100, [], []⟩ "A" 1 3 2 4 "t1" "t2" (by norm_num) (by norm_num)
    (by norm_num) (by norm_num) (by decide) (by norm_num)

/-- C3: the object passed to `execute_trade` is never mutated.  In the
object-store model, after any call — failing or successful — the caller's
object `sid` still holds its prior value, and a successful call returns a
distinct object id. -/
theorem C3_no_mutation (store : Nat → PortfolioState) (sid fresh : Nat)
    (hne : fresh ≠ sid) (sym side : String) (q p : ℚ) (t : String) :
    (execute_trade_ref store sid fresh sym side q p t).2 sid = store sid ∧
    ∀ rid, (execute_trade_ref store sid fresh sym side q p t).1 = .ok rid →
      rid ≠ sid := by
  unfold execute_trade_ref
  cases he : execute_trade (Function.update store fresh (store sid) fresh) sym side q p t with
  | error e =>
    simp only [he]
    constructor
    · exact Function.update_noteq (Ne.symm hne) _ _
    · intro rid hr
      cases hr
  | ok s1 =>
    simp only [he]
    constructor
    · rw [Function.update_noteq (Ne.symm hne), Function.update_noteq (Ne.symm hne)]
    · intro rid hr
      obtain rfl := Except.ok.inj hr
      exact hne

/-- C3 witness at a concrete store. -/
theorem C3_no_mutation_witness :
    (execute_trade_ref (fun _ => ⟨7, [], []⟩) 0 1 "A" "buy" 1 1 "t").2 0 =
      (⟨7, [], []⟩ : PortfolioState) :=
  (C3_no_mutation (fun _ => ⟨7, [], []⟩) 0 1 (by decide) "A" "buy" 1 1 "t").1

/-- C4: solvency.  Starting from non-negative cash, a successful sequence of
positive-quantity, positive-price trades keeps cash non-negative after every
applied trade (every prefix of the sequence). -/
theorem C4_solvency (s : PortfolioState) (l : List TradeReq)
    (hc : 0 ≤ s.cash) (hl : ∀ r ∈ l, 0 < r.quantity ∧ 0 < r.price)
    (sfin : PortfolioState) (hfin : applyTrades s l = .ok sfin) :
    0 ≤ sfin.cash ∧
    ∀ l1 l2 s1, l = l1 ++ l2 → applyTrades s l1 = .ok s1 → 0 ≤ s1.cash := by
  refine ⟨applyTrades_cash_nonneg l s hc hl sfin hfin, ?_⟩
  intro l1 l2 s1 hsplit h1
  refine applyTrades_cash_nonneg l1 s hc ?_ s1 h1
  intro r hr
  refine hl r ?_
  rw [hsplit]
  exact List.mem_append_left l2 hr

/-- C4 witness: one affordable buy from cash 10. -/
theorem C4_solvency_witness :
    0 ≤ PortfolioState.cash ⟨8, [⟨"A", 1, 2⟩], [⟨"A", "buy", 1, 2, "t"⟩]⟩ :=
  (C4_solvency ⟨10, [], []⟩ [⟨"A", "buy", 1, 2, "t"⟩] (by norm_num)
    (by intro r hr; simp at hr; subst hr; constructor <;> norm_num)
    ⟨8, [⟨"A", 1, 2⟩], [⟨"A", "buy", 1, 2, "t"⟩]⟩ (by decide)).1

/-- C5: a sell fails with the insufficient-shares error exactly when the
requested quantity exceeds the held quantity; a missing position counts as
holding zero, so any positive sell on it fails; a successful sell adds
quantity*price to cash and removes the quantity from the position. -/
theorem C5_insufficient_shares (s : PortfolioState) (sym : String) (q p : ℚ)
    (t : String) :
    (execute_trade s sym "sell" q p t = .error .insufficientShares ↔
      heldQty s.positions sym < q) ∧
    (s.positions.find? (fun x => x.symbol == sym) = none → 0 < q →
      execute_trade s sym "sell" q p t = .error .insufficientShares) ∧
    (∀ s1, execute_trade s sym "sell" q p t = .ok s1 →
      s1.cash = s.cash + q * p ∧
      heldQty s1.positions sym = heldQty s.positions sym - q) := by
  have hside : ("sell" : String) ≠ "buy" := by decide
  refine ⟨⟨?_, ?_⟩, ?_, ?_⟩
  · intro h
    exact ((sell_error_iff s sym "sell" q p t hside _).mp h).1
  · intro h
    exact (sell_error_iff s sym "sell" q p t hside _).mpr ⟨h, rfl⟩
  · intro hnone hq
    refine (sell_error_iff s sym "sell" q p t hside _).mpr ⟨?_, rfl⟩
    unfold heldQty
    rw [hnone]
    exact hq
  · intro s1 h
    obtain ⟨-, hc, hq, -⟩ := sell_ok_parts s sym "sell" q p t hside s1 h
    exact ⟨hc, hq⟩

/-- C5 witness: selling 1 unit of an unheld symbol fails. -/
theorem C5_insufficient_shares_witness :
    execute_trade ⟨100, [], []⟩ "Y" "sell" 1 5 "t" = .error .insufficientShares :=
  (C5_insufficient_shares ⟨100, [], []⟩ "Y" 1 5 "t").1.mpr (by decide)


/-- C6: a buy fails (and its only error is insufficient funds) exactly when
cost = quantity*price strictly exceeds cash; a buy whose cost equals cash
succeeds and leaves cash 0; a successful buy subtracts the cost from cash. -/
theorem C6_insufficient_funds (s : PortfolioState) (sym : String) (q p : ℚ)
    (t : String) :
    ((∃ e, execute_trade s sym "buy" q p t = .error e) ↔ s.cash < q * p) ∧
    (∀ e, execute_trade s sym "buy" q p t = .error e → e = .insufficientCash) ∧
    (s.cash = q * p → ∃ s1, execute_trade s sym "buy" q p t = .ok s1 ∧ s1.cash = 0) ∧
    (∀ s1, execute_trade s sym "buy" q p t = .ok s1 → s1.cash = s.cash - q * p) := by
  refine ⟨⟨?_, ?_⟩, ?_, ?_, ?_⟩
  · intro he
    obtain ⟨e, he⟩ := he
    exact ((buy_error_iff s sym q p t e).mp he).1
  · intro hlt
    exact ⟨.insufficientCash, (buy_error_iff s sym q p t _).mpr ⟨hlt, rfl⟩⟩
  · intro e he
    exact ((buy_error_iff s sym q p t e).mp he).2
  · intro heq
    have hnl : ¬ s.cash < q * p := by
      rw [heq]
      exact lt_irrefl _
    obtain ⟨s1, hs1⟩ := buy_ok_exists s sym q p t hnl
    obtain ⟨hc, -⟩ := buy_ok_parts s sym q p t s1 hs1
    refine ⟨s1, hs1, ?_⟩
    rw [hc, heq]
    ring
  · intro s1 h
    exact (buy_ok_parts s sym q p t s1 h).1

/-- C6 witness: with cash 100, buying 1 unit at 150 fails. -/
theorem C6_insufficient_funds_witness :
    ∃ e, execute_trade ⟨100, [], []⟩ "X" "buy" 1 150 "t" = .error e :=
  (C6_insufficient_funds ⟨100, [], []⟩ "X" 1 150 "t").1.mpr (by norm_num)

/-- C7 counterexample: from a state satisfying the basis invariant, one
successful `execute_trade` call (a buy with quantity -1, which the code
accepts) reaches a position with quantity 0 but average cost 5000000000. -/
theorem C7_counterexample :
    (execute_trade ⟨100, [⟨"A", 1, 10⟩], []⟩ "A" "buy" (-1) 5 "t0").map
        (fun s1 => (heldQty s1.positions "A", heldAvg s1.positions "A")) =
      .ok (0, 5000000000) ∧ ¬ (5000000000 : ℚ) = 0 := by
  refine ⟨by decide, by decide⟩

/-- C7 (amended): restricted to trades with positive quantity, the basis
invariant (quantity 0 implies average cost 0) is preserved from any start
state whose positions are non-negative and satisfy it; selling a symbol's
entire held quantity resets its average cost to zero; and a subsequent buy of
at least the 1e-9 guard establishes an average equal to that buy's price. -/
theorem C7_basis_reset (s : PortfolioState)
    (hinv : ∀ x ∈ s.positions, PosOK x)
    (l : List TradeReq) (hl : ∀ r ∈ l, 0 < r.quantity)
    (sfin : PortfolioState) (hfin : applyTrades s l = .ok sfin) :
    (∀ x ∈ sfin.positions, PosOK x) ∧
    (∀ sym p t s1,
      execute_trade sfin sym "sell" (heldQty sfin.positions sym) p t = .ok s1 →
      heldAvg s1.positions sym = 0) ∧
    (∀ sym q p t s1, heldQty sfin.positions sym = 0 → 1 / 1000000000 ≤ q →
      execute_trade sfin sym "buy" q p t = .ok s1 →
      heldAvg s1.positions sym = p) := by
  have hfinOK := applyTrades_posOK l s hinv hl sfin hfin
  refine ⟨hfinOK, ?_, ?_⟩
  · intro sym p t s1 h1
    have hside : ("sell" : String) ≠ "buy" := by decide
    obtain ⟨-, -, -, havg, -⟩ :=
      sell_ok_parts sfin sym "sell" (heldQty sfin.positions sym) p t hside s1 h1
    rw [havg, if_pos (by ring)]
  · intro sym q p t s1 h0 hq h1
    have hqpos : 0 < q := lt_of_lt_of_le (by norm_num) hq
    obtain ⟨-, -, havg, -⟩ := buy_ok_parts sfin sym q p t s1 h1
    rw [havg, h0, mul_zero, zero_add, zero_add, max_eq_left hq]
    exact mul_div_cancel_right₀ p (ne_of_gt hqpos)

/-- C7 witness: after an empty trade sequence, a fresh buy of 1 unit at
price 3 records average cost 3. -/
theorem C7_basis_reset_witness :
    heldAvg (PortfolioState.positions ⟨7, [⟨"A", 1, 3⟩], [⟨"A", "buy", 1, 3, "t"⟩]⟩)
      "A" = 3 :=
  (C7_basis_reset ⟨10, [], []⟩ (by simp) [] (by simp) ⟨10, [], []⟩ rfl).2.2
    "A" 1 3 "t" ⟨7, [⟨"A", 1, 3⟩], [⟨"A", "buy", 1, 3, "t"⟩]⟩ (by decide)
    (by norm_num) (by decide)

/-- C8: inventory.  Starting from positions with non-negative quantities, a
successful sequence of positive-quantity, positive-price trades keeps every
position quantity non-negative after every applied trade (every prefix). -/
theorem C8_inventory (s : PortfolioState) (l : List TradeReq)
    (hinv : ∀ x ∈ s.positions, 0 ≤ x.quantity)
    (hl : ∀ r ∈ l, 0 < r.quantity ∧ 0 < r.price)
    (sfin : PortfolioState) (hfin : applyTrades s l = .ok sfin) :
    (∀ x ∈ sfin.positions, 0 ≤ x.quantity) ∧
    ∀ l1 l2 s1, l = l1 ++ l2 → applyTrades s l1 = .ok s1 →
      ∀ x ∈ s1.positions, 0 ≤ x.quantity := by
  have hq : ∀ r ∈ l, 0 < r.quantity := fun r hr => (hl r hr).1
  refine ⟨applyTrades_qty_nonneg l s hinv hq sfin hfin, ?_⟩
  intro l1 l2 s1 hsplit h1
  refine applyTrades_qty_nonneg l1 s hinv ?_ s1 h1
  intro r hr
  refine hq r ?_
  rw [hsplit]
  exact List.mem_append_left l2 hr

/-- C8 witness: buy then sell one unit keeps quantities non-negative. -/
theorem C8_inventory_witness :
    0 ≤ Position.quantity ⟨"A", 0, 0⟩ :=
  (C8_inventory ⟨10, [], []⟩ [⟨"A", "buy", 1, 2, "t1"⟩, ⟨"A", "sell", 1, 2, "t2"⟩]
    (by simp)
    (by intro r hr; simp at hr; rcases hr with h | h <;> subst h <;>
      exact ⟨by norm_num, by norm_num⟩)
    ⟨10, [⟨"A", 0, 0⟩], [⟨"A", "buy", 1, 2, "t1"⟩, ⟨"A", "sell", 1, 2, "t2"⟩]⟩
    (by decide)).1 ⟨"A", 0, 0⟩ (by decide)

/-- C9: every successful call appends exactly its own trade record (symbol,
side, quantity, price, time) at the end of the history, leaving the existing
entries unchanged; over any successful sequence the initial history stays a
prefix, so length never decreases. -/
theorem C9_history_append (s : PortfolioState) :
    (∀ sym side q p t s1, execute_trade s sym side q p t = .ok s1 →
      s1.history = s.history ++ [⟨sym, side, q, p, t⟩]) ∧
    (∀ l sfin, applyTrades s l = .ok sfin → ∃ u, sfin.history = s.history ++ u) := by
  constructor
  · intro sym side q p t s1 h
    exact step_history s s1 sym side q p t h
  · intro l sfin h
    exact applyTrades_history l s sfin h

/-- C9 witness: a concrete sell appends its record to an empty history. -/
theorem C9_history_append_witness :
    PortfolioState.history ⟨2, [⟨"A", 0, 0⟩], [⟨"A", "sell", 1, 2, "t"⟩]⟩ =
      PortfolioState.history ⟨0, [⟨"A", 1, 2⟩], []⟩ ++ [⟨"A", "sell", 1, 2, "t"⟩] :=
  (C9_history_append ⟨0, [⟨"A", 1, 2⟩], []⟩).1 "A" "sell" 1 2 "t"
    ⟨2, [⟨"A", 0, 0⟩], [⟨"A", "sell", 1, 2, "t"⟩]⟩ (by decide)

/-- C10: any side other than "buy" gets sell semantics: it fails with the
insufficient-shares error when the quantity exceeds the holding, and
otherwise succeeds, adding quantity*price to cash, subtracting the quantity
from the position, and appending a history record carrying that side string. -/
theorem C10_non_buy_sell_semantics (s : PortfolioState) (sym side : String)
    (q p : ℚ) (t : String) (hside : side ≠ "buy") :
    (heldQty s.positions sym < q →
      execute_trade s sym side q p t = .error .insufficientShares) ∧
    (¬ heldQty s.positions sym < q →
      ∃ s1, execute_trade s sym side q p t = .ok s1 ∧
        s1.cash = s.cash + q * p ∧
        heldQty s1.positions sym = heldQty s.positions sym - q ∧
        s1.history = s.history ++ [⟨sym, side, q, p, t⟩]) := by
  constructor
  · intro hlt
    exact (sell_error_iff s sym side q p t hside _).mpr ⟨hlt, rfl⟩
  · intro hge
    obtain ⟨s1, hs1⟩ := sell_ok_exists s sym side q p t hside hge
    obtain ⟨-, hc, hq, -, hh, -⟩ := sell_ok_parts s sym side q p t hside s1 hs1
    exact ⟨s1, hs1, hc, hq, hh⟩

/-- C10 witness: side "hold" against a 5-share position sells 3 shares. -/
theorem C10_non_buy_sell_semantics_witness :
    ∃ s1, execute_trade ⟨0, [⟨"A", 5, 10⟩], []⟩ "A" "hold" 3 2 "t" = .ok s1 ∧
      s1.cash = PortfolioState.cash ⟨0, [⟨"A", 5, 10⟩], []⟩ + 3 * 2 ∧
      heldQty s1.positions "A" =
        heldQty (PortfolioState.positions ⟨0, [⟨"A", 5, 10⟩], []⟩) "A" - 3 ∧
      s1.history = PortfolioState.history ⟨0, [⟨"A", 5, 10⟩], []⟩ ++
        [⟨"A", "hold", 3, 2, "t"⟩] :=
  (C10_non_buy_sell_semantics ⟨0, [⟨"A", 5, 10⟩], []⟩ "A" "hold" 3 2 "t"
    (by decide)).2 (by decide)

end PortfolioSim
